import Mathlib

/-!
Verification development for the BidlineBuddy retrieval-augmented QA service.

The definitions below are a shallow embedding of the TypeScript source:
* `src/app/api/ask/route.ts` — the POST endpoint (retrieval gating, fallback
  answers, prompt context assembly, response formatting);
* the corpus loader script (paragraph chunking `chunkText`, ingestion `main`);
* `src/scripts/backfill-embeddings.cjs` — the embedding backfill job.

JavaScript strings are modelled as `List Char` / `String`; the concrete
regular expressions used by the code are modelled by explicit scanning
functions with JavaScript semantics (leftmost match, greedy `.*` that does
not cross line terminators, `$` anchored at end of input since the `m` flag
is absent, first-occurrence-only `replace` since the `g` flag is absent).
Case-insensitive matching is modelled by ASCII lowering, which agrees with
the JavaScript `i` flag on the ASCII literals the code uses. JavaScript
numbers (similarity scores, thresholds) are modelled as rationals.
-/

namespace BidlineBuddy

-- Let decimal threshold literals such as (0.45 : ℚ) unfold during
-- elaboration, so that `decide` can settle concrete rational comparisons.
attribute [local semireducible] Rat.ofScientific

/-- Case-insensitive character comparison, modelling the `i` regex flag on
the ASCII literals used by the code. -/
def lowEq (a b : Char) : Bool := a.toLower == b.toLower

/-- `startsW eq pat s` : the pattern `pat` matches at the head of `s`,
character-wise by `eq`. -/
def startsW (eq : Char → Char → Bool) : List Char → List Char → Bool
  | [], _ => true
  | _ :: _, [] => false
  | p :: ps, c :: cs => eq p c && startsW eq ps cs

/-- `containsW eq pat s` : the pattern `pat` matches at some position of `s`. -/
def containsW (eq : Char → Char → Bool) (pat : List Char) : List Char → Bool
  | [] => startsW eq pat []
  | c :: cs => startsW eq pat (c :: cs) || containsW eq pat cs

/-- The JavaScript regex whitespace class `\s` (also the set stripped by
`String.prototype.trim`), restricted to the members that occur in practice:
ASCII whitespace plus no-break space, line separator, paragraph separator
and BOM. -/
def jsWs (c : Char) : Bool :=
  c == ' ' || c == '\t' || c == '\n' || c == '\r' || c == '\x0B' ||
  c == '\x0C' || c == ' ' || c == ' ' || c == ' ' ||
  c == '﻿'

/-- JavaScript regex line terminators: the characters NOT matched by `.`. -/
def lineTerm (c : Char) : Bool :=
  c == '\n' || c == '\r' || c == ' ' || c == ' '

/-- The literal that the two confidence-tag regexes in the route anchor on. -/
def confLit : List Char := "Confidence tag:".toList

/-- One attempted match of `/Confidence tag:\s*(High|Medium|Low)/i` at the
head of `s`: the literal (case-insensitive), then greedily skipped
whitespace, then one of the three alternatives; returns the lowercased
captured group (the code applies `.toLowerCase()` to the capture). -/
def tagAt (s : List Char) : Option String :=
  if startsW lowEq confLit s then
    let rest := (s.drop confLit.length).dropWhile jsWs
    if startsW lowEq "High".toList rest then some "high"
    else if startsW lowEq "Medium".toList rest then some "medium"
    else if startsW lowEq "Low".toList rest then some "low"
    else none
  else none

/-- Leftmost match of `/Confidence tag:\s*(High|Medium|Low)/i` over the whole
string, as performed by `raw.match(...)`. -/
def findTag : List Char → Option String
  | [] => none
  | c :: cs =>
    match tagAt (c :: cs) with
    | some t => some t
    | none => findTag cs

/-- `raw.match(/Confidence tag:\s*(High|Medium|Low)/i)` then
`tagMatch ? tagMatch[1].toLowerCase() : "unknown"` (route lines 226–229). -/
def extractTag (raw : String) : String := (findTag raw.toList).getD "unknown"

/-- Whether `/Confidence tag:.*$/i` matches at the head of `s`: the literal
(case-insensitive) followed by characters that `.` can match (no line
terminator) up to the end of input (`$` without the `m` flag). -/
def stripHit (s : List Char) : Bool :=
  startsW lowEq confLit s && (s.drop confLit.length).all (fun c => !lineTerm c)

/-- `raw.replace(/Confidence tag:.*$/i, "")`: remove the leftmost match (the
`g` flag is absent, so only the first match is replaced; a successful match
necessarily extends to the end of input). -/
def stripScan : List Char → List Char
  | [] => []
  | c :: cs => if stripHit (c :: cs) then [] else c :: stripScan cs

/-- JavaScript `String.prototype.trim`: strip `jsWs` from both ends. -/
def jsTrim (l : List Char) : List Char :=
  ((l.dropWhile jsWs).reverse.dropWhile jsWs).reverse

/-- The Response Formatter body text:
`raw.replace(/Confidence tag:.*$/i, "").trim()` (route lines 89, 130, 231). -/
def stripAnswer (raw : String) : String :=
  ⟨jsTrim (stripScan raw.toList)⟩

/-- Exact (case-sensitive) character equality, for stating substring facts. -/
def chEq (a b : Char) : Bool := a == b

/-- Exact substring test, for stating what the returned answers contain. -/
def litContains (pat s : String) : Bool := containsW chEq pat.toList s.toList

/-- Every (case-insensitive) occurrence of the literal in `l` is a full
regex hit, i.e. is followed only by non-line-terminator characters up to the
end of input. Under this condition `replace` removes from the first
occurrence onward. -/
def goodConf : List Char → Bool
  | [] => true
  | c :: cs => (!startsW lowEq confLit (c :: cs) || stripHit (c :: cs)) && goodConf cs

/-- Suffix test used to state what "ends with" means, over characters. -/
def endsWithL (post s : String) : Bool :=
  startsW chEq post.toList.reverse s.toList.reverse

/-! ## Data model -/

/-- A row returned by the Chunk Store RPC `match_blr_chunks`. Fields the
route reads dynamically are optional: `none` models an absent field or a
value of the wrong runtime type (the route guards each access with a
`typeof` check or with truthiness). Similarity scores are rationals. -/
structure Chunk where
  content : Option String
  source : Option String
  page : Option String
  «section» : Option String
  similarity : Option ℚ
deriving DecidableEq, Repr

/-- The `query` field of the request body: absent, present but not a
string, or a string. -/
inductive QueryField where
  | absent : QueryField
  | notString : QueryField
  | str : String → QueryField
deriving DecidableEq, Repr

/-- Outcome of the Chunk Store call `supabase.rpc("match_blr_chunks", …)`:
either an error, or `data` (which supabase may return as null — `none`). -/
inductive StoreReply where
  | fail : StoreReply
  | ok : Option (List Chunk) → StoreReply
deriving DecidableEq, Repr

/-- Which external collaborators a request execution invoked, and with what
store parameters. -/
structure Calls where
  embed : Bool
  store : Bool
  storeThreshold : Option ℚ
  storeCount : Option Nat
  gen : Bool
deriving DecidableEq, Repr

/-- The JSON value the endpoint responds with: an error object with its
HTTP status, or a success object `{answer, chunks, confidenceTag}`. -/
inductive ApiResult where
  | err : String → Nat → ApiResult
  | ok : String → List Chunk → String → ApiResult
deriving DecidableEq, Repr

/-! ## Fallback answers (route lines 72–86 and 111–127) -/

/-- The canned no-coverage fallback text (route lines 72–86), before the
confidence line is stripped. -/
def noCoverageRaw : String :=
  String.intercalate "\n"
    [ "1) TL;DR:",
      "- The extracts I have do not clearly cover this scenario.",
      "",
      "2) What the rules say:",
      "- I couldn't find any clearly relevant rules in the indexed Bidline Rules / BASC extracts.",
      "",
      "3) What the rules don’t say / grey area:",
      "- The documents I have do not directly cover this scenario, so I cannot safely infer an answer.",
      "",
      "4) Operational steer (not official advice):",
      "- For anything borderline or career-critical, the safest course is to speak directly with BASC or Scheduling and follow their written guidance.",
      "",
      "Confidence tag: Low" ]

/-- The canned weak-coverage fallback text (route lines 111–127), before the
confidence line is stripped. -/
def weakCoverageRaw : String :=
  String.intercalate "\n"
    [ "1) TL;DR:",
      "- The closest matches in BLR / BASC do not clearly cover this exact scenario.",
      "",
      "2) What the rules say:",
      "- The sections I can find are only loosely related to your question, so I cannot safely treat them as definitive for this case.",
      "",
      "3) What the rules don’t say / grey area:",
      "- There appears to be a gap between your scenario and the extracts I have.",
      "- Interpreting other rule types (e.g. hotel report vs home standby, or short-haul vs long-haul) as if they applied here would be speculative.",
      "",
      "4) Operational steer (not official advice):",
      "- Treat this as a grey area and speak to BASC or Scheduling before relying on any interpretation.",
      "- Ask them to confirm the correct application of BLR / BASC for your specific duty pattern.",
      "",
      "Confidence tag: Low" ]

/-- The no-coverage answer as returned: confidence line stripped, trimmed. -/
def noCoverageAnswer : String := stripAnswer noCoverageRaw

/-- The weak-coverage answer as returned: confidence line stripped, trimmed. -/
def weakCoverageAnswer : String := stripAnswer weakCoverageRaw

/-! ## Retrieval gating (route lines 20–22, 51–105) -/

/-- `/fdp|flight duty period|maximum duty/i.test(query)` (route line 20). -/
def isFdpQuestion (q : String) : Bool :=
  containsW lowEq "fdp".toList q.toList ||
  containsW lowEq "flight duty period".toList q.toList ||
  containsW lowEq "maximum duty".toList q.toList

/-- Store similarity threshold: `isFdpQuestion ? 0.45 : 0.55` (line 53). -/
def matchThreshold (fdp : Bool) : ℚ := if fdp then 0.45 else 0.55

/-- Effective answer threshold: `isFdpQuestion ? 0.5 : 0.6` (line 104). -/
def effectiveMaxSimThreshold (fdp : Bool) : ℚ := if fdp then 0.5 else 0.6

/-- Lines 96–102: collect the numeric `similarity` fields; the maximum of a
non-empty collection, else 0 (`sims.length > 0 ? Math.max(...sims) : 0`). -/
def maxSimOf (chunks : List Chunk) : ℚ :=
  match chunks.filterMap Chunk.similarity with
  | [] => 0
  | x :: xs => xs.foldl max x

/-! ## Prompt context assembly (route lines 136–152) -/

/-- JavaScript `Array.prototype.join(sep)`. -/
def joinSep (sep : String) : List String → String
  | [] => ""
  | [x] => x
  | x :: y :: xs => x ++ sep ++ joinSep sep (y :: xs)

/-- The four label parts for chunk number `idx` (0-based): positional label,
source with falsy fallback, optional page in parentheses, optional dashed
section (route lines 138–143). -/
def labelParts (idx : Nat) (c : Chunk) : List String :=
  [ "[" ++ toString (idx + 1) ++ "]",
    match c.source with
    | some s => if s = "" then "Unknown source" else s
    | none => "Unknown source",
    match c.page with
    | some p => if p = "" then "" else "(" ++ p ++ ")"
    | none => "",
    match c.«section» with
    | some s => if s = "" then "" else "– " ++ s
    | none => "" ]

/-- One entry of the prompt context: joined truthy label parts, newline,
then the (possibly truncated) chunk content (route lines 137–151). -/
def contextEntry (idx : Nat) (c : Chunk) : String :=
  let label := joinSep " " ((labelParts idx c).filter (fun s => !s.isEmpty))
  let content := c.content.getD ""
  let trimmedContent :=
    if content.length > 1200 then content.take 1200 ++ " …" else content
  label ++ "\n" ++ trimmedContent

/-- The full prompt context (route lines 136–152). -/
def contextText (chunks : List Chunk) : String :=
  joinSep "\n\n" (chunks.mapIdx fun idx c => contextEntry idx c)

/-! ## The POST endpoint (route lines 16–233) -/

/-- The POST handler, as a function of the `query` field of the parsed
body, the Chunk Store reply, and the raw Answer Generator output (used
only on the path where the generator is invoked). The `Calls` component
records which external calls the execution performed. The conversational
history only affects the prompt text, not the control flow or the response
shape, so it is not a parameter here. -/
def postRoute (q : QueryField) (store : StoreReply) (raw : String) :
    ApiResult × Calls :=
  match q with
  | QueryField.str s =>
    if s = "" then
      (ApiResult.err "Missing query" 400, ⟨false, false, none, none, false⟩)
    else
      let fdp := isFdpQuestion s
      let th := matchThreshold fdp
      match store with
      | StoreReply.fail =>
        (ApiResult.err "Database search failed in BidlineBuddy." 500,
         ⟨true, true, some th, some 10, false⟩)
      | StoreReply.ok data =>
        let chunks := data.getD []
        if chunks.isEmpty then
          (ApiResult.ok noCoverageAnswer [] "low",
           ⟨true, true, some th, some 10, false⟩)
        else if maxSimOf chunks < effectiveMaxSimThreshold fdp then
          (ApiResult.ok weakCoverageAnswer chunks "low",
           ⟨true, true, some th, some 10, false⟩)
        else
          (ApiResult.ok (stripAnswer raw) chunks (extractTag raw),
           ⟨true, true, some th, some 10, true⟩)
  | _ => (ApiResult.err "Missing query" 400, ⟨false, false, none, none, false⟩)

/-! ## Corpus loader: paragraph chunking (part_001 lines 22–53) -/

/-- The tail of one match of the separator regex `/\n\s*\n/` after its
leading newline: `\s*` greedily consumes whitespace and backtracks until
the next character is the closing newline. Returns the input remainder
after the closing newline, `none` when no match exists here. -/
def sepTail : List Char → Option (List Char)
  | [] => none
  | c :: cs =>
    if jsWs c then
      match sepTail cs with
      | some r => some r
      | none => if c == '\n' then some cs else none
    else none

/-- `text.split(/\n\s*\n/g)` with JavaScript semantics: scan left to
right, split at each leftmost separator match, continue after it. Written
with one unit of fuel per character for structural termination; a separator
match consumes at least one character, so with fuel = input length the
fuel-exhausted case is never reached. -/
def splitParaAux : Nat → List Char → List Char → List (List Char)
  | _, acc, [] => [acc.reverse]
  | 0, acc, rest => [acc.reverse ++ rest]
  | fuel + 1, acc, c :: rest =>
    if c == '\n' then
      match sepTail rest with
      | some r => acc.reverse :: splitParaAux fuel [] r
      | none => splitParaAux fuel (c :: acc) rest
    else splitParaAux fuel (c :: acc) rest

/-- `text.split(/\n\s*\n/g)` (part_001 line 25). -/
def splitParas (l : List Char) : List (List Char) := splitParaAux l.length [] l

/-- `text.split(/\n\s*\n/g).map(p => p.trim()).filter(Boolean)`
(part_001 lines 24–27): the empty string is falsy. -/
def paragraphs (text : String) : List (List Char) :=
  ((splitParas text.toList).map jsTrim).filter (fun p => !p.isEmpty)

/-- The oversized-paragraph loop (part_001 lines 37–39): slices
`p.slice(i, i + maxChars)` for i = 0, maxChars, 2·maxChars, …. Fuel as
above; for `m = 0` the JavaScript loop would not terminate, so that case is
cut off (the loader only ever calls with maxChars = 1600). -/
def chunksOfF : Nat → Nat → List Char → List (List Char)
  | _, _, [] => []
  | 0, _, l => [l]
  | fuel + 1, m, c :: rest =>
    if m == 0 then []
    else (c :: rest).take m :: chunksOfF fuel m ((c :: rest).drop m)

/-- All `maxChars`-sized slices of a paragraph, left to right. -/
def chunksOf (m : Nat) (l : List Char) : List (List Char) := chunksOfF l.length m l

/-- The main chunking fold (part_001 lines 29–51): `current` accumulates
paragraphs joined by blank lines while the joined length stays within
`maxChars`; an oversized paragraph flushes `current` and is sliced at the
character boundary. -/
def chunkCore (m : Nat) : List (List Char) → List Char → List (List Char)
  | [], current => if current.isEmpty then [] else [jsTrim current]
  | p :: ps, current =>
    if m < p.length then
      (if current.isEmpty then [] else [jsTrim current]) ++
        chunksOf m p ++ chunkCore m ps []
    else if m < (current ++ '\n' :: '\n' :: p).length then
      (if current.isEmpty then [] else [jsTrim current]) ++ chunkCore m ps p
    else
      chunkCore m ps (if current.isEmpty then p else current ++ '\n' :: '\n' :: p)

/-- `chunkText(text, maxChars)` (part_001 lines 22–53). -/
def chunkTextM (m : Nat) (text : String) : List String :=
  (chunkCore m (paragraphs text) []).map fun l => ⟨l⟩

/-- `chunkText(text)` at the default maxChars = 1600 — the only call site
(part_001 line 70). -/
def chunkText (text : String) : List String := chunkTextM 1600 text

/-! ## Corpus ingestion and embedding backfill -/

/-- A persisted row of the `blr_chunks` table. -/
structure Row where
  content : String
  source : String
  «section» : String
  page : String
  embedding : Option (List ℚ)
deriving DecidableEq, Repr

/-- The row the ingestion script builds for one chunk (part_001 lines
83–89). -/
def mkRow (embed : String → List ℚ) (content : String) : Row :=
  ⟨content, "Bidline Rules Feb 2025", "", "", some (embed content)⟩

/-- One run of the ingestion `main` (part_001 lines 70–96) as a function of
the store state: chunk the document text, embed every chunk, and insert one
row per chunk. The script batches the embedding calls in groups of 20,
which appends the same rows in the same order, so the net store effect is a
single append. -/
def ingestRun (embed : String → List ℚ) (text : String) (store : List Row) :
    List Row :=
  store ++ (chunkText text).map (mkRow embed)

/-- The backfill update for one row (backfill-embeddings.cjs lines 20–60):
rows whose embedding is null get one computed from their content; every
other row is untouched. -/
def backfillRow (embed : String → List ℚ) (r : Row) : Row :=
  match r.embedding with
  | none => { r with embedding := some (embed r.content) }
  | some _ => r

/-- One run of the backfill job as a function of the store state. -/
def backfillRun (embed : String → List ℚ) (store : List Row) : List Row :=
  store.map (backfillRow embed)

/-! ## Helper lemmas about the route -/

/-- The weak-coverage branch of the route, shared shape. -/
lemma postRoute_weak (s : String) (chunks : List Chunk) (raw : String)
    (hs : s ≠ "") (hne : chunks ≠ [])
    (hsim : maxSimOf chunks < effectiveMaxSimThreshold (isFdpQuestion s)) :
    postRoute (QueryField.str s) (StoreReply.ok (some chunks)) raw =
      (ApiResult.ok weakCoverageAnswer chunks "low",
       ⟨true, true, some (matchThreshold (isFdpQuestion s)), some 10, false⟩) := by
  obtain ⟨c, cs, rfl⟩ := List.exists_cons_of_ne_nil hne
  simp [postRoute, hs, hsim]

/-! ## Claim theorems: retrieval gating -/

/-- C1: for every query whose retrieval returns zero chunks (a null or empty
`data`), the endpoint returns the canned no-coverage fallback answer with
confidenceTag "low" and an empty chunk list, and the Answer Generator is not
invoked. -/
theorem c1_no_coverage (s : String) (data : Option (List Chunk)) (raw : String)
    (hs : s ≠ "") (hdata : data = none ∨ data = some []) :
    postRoute (QueryField.str s) (StoreReply.ok data) raw =
      (ApiResult.ok noCoverageAnswer [] "low",
       ⟨true, true, some (matchThreshold (isFdpQuestion s)), some 10, false⟩) := by
  rcases hdata with h | h <;> subst h <;> simp [postRoute, hs]

/-- Witness for C1 at a concrete query and an empty retrieval result. -/
theorem c1_no_coverage_witness :
    postRoute (QueryField.str "What is the minimum rest after disruption?")
        (StoreReply.ok (some [])) "unused" =
      (ApiResult.ok noCoverageAnswer [] "low",
       ⟨true, true,
        some (matchThreshold
          (isFdpQuestion "What is the minimum rest after disruption?")),
        some 10, false⟩) :=
  c1_no_coverage _ _ _ (by decide) (Or.inr rfl)

/-- C2: for every non-empty retrieval result whose maximum similarity is
below the effective-answer threshold, the endpoint returns the canned
weak-coverage fallback answer with confidenceTag "low" and does not invoke
the Answer Generator. -/
theorem c2_weak_coverage (s : String) (chunks : List Chunk) (raw : String)
    (hs : s ≠ "") (hne : chunks ≠ [])
    (hsim : maxSimOf chunks < effectiveMaxSimThreshold (isFdpQuestion s)) :
    postRoute (QueryField.str s) (StoreReply.ok (some chunks)) raw =
      (ApiResult.ok weakCoverageAnswer chunks "low",
       ⟨true, true, some (matchThreshold (isFdpQuestion s)), some 10, false⟩) :=
  postRoute_weak s chunks raw hs hne hsim

/-- Witness for C2: five chunks with similarities 0.3, 0.35, 0.2, 0.4, 0.1
(spec Scenario B) against the non-FDP effective threshold 0.6. -/
theorem c2_weak_coverage_witness :
    postRoute (QueryField.str "What is the minimum rest after disruption?")
        (StoreReply.ok (some
          [ ⟨some "a", none, none, none, some 0.3⟩,
            ⟨some "b", none, none, none, some 0.35⟩,
            ⟨some "c", none, none, none, some 0.2⟩,
            ⟨some "d", none, none, none, some 0.4⟩,
            ⟨some "e", none, none, none, some 0.1⟩ ])) "unused" =
      (ApiResult.ok weakCoverageAnswer
        [ ⟨some "a", none, none, none, some 0.3⟩,
          ⟨some "b", none, none, none, some 0.35⟩,
          ⟨some "c", none, none, none, some 0.2⟩,
          ⟨some "d", none, none, none, some 0.4⟩,
          ⟨some "e", none, none, none, some 0.1⟩ ] "low",
       ⟨true, true,
        some (matchThreshold
          (isFdpQuestion "What is the minimum rest after disruption?")),
        some 10, false⟩) :=
  c2_weak_coverage _ _ _ (by decide) (by decide) (by decide)

/-- C5: a missing, empty or non-string `query` yields the 400 error object
with message "Missing query", and no external call (embedding, store or
generator) is made. -/
theorem c5_missing_query (q : QueryField) (store : StoreReply) (raw : String)
    (h : q = QueryField.absent ∨ q = QueryField.notString ∨
      q = QueryField.str "") :
    postRoute q store raw =
      (ApiResult.err "Missing query" 400, ⟨false, false, none, none, false⟩) := by
  rcases h with h | h | h <;> subst h <;> simp [postRoute]

/-- Witness for C5 at the empty-string query. -/
theorem c5_missing_query_witness :
    postRoute (QueryField.str "") (StoreReply.ok (some [])) "unused" =
      (ApiResult.err "Missing query" 400, ⟨false, false, none, none, false⟩) :=
  c5_missing_query _ _ _ (Or.inr (Or.inr rfl))

/-- C6: the store is queried with threshold 0.45 and gated at 0.5 for
duty-time (FDP) queries, and with threshold 0.55 and gated at 0.6 otherwise,
with result cap 10; the generator runs exactly when the maximum similarity
reaches the effective threshold; and all constants lie within the ranges
stated by the spec (store threshold 0.4–0.55, cap 10–12, effective
threshold 0.5–0.6). -/
theorem c6_thresholds (s : String) (chunks : List Chunk) (raw : String)
    (hs : s ≠ "") (hne : chunks ≠ []) :
    ((postRoute (QueryField.str s) (StoreReply.ok (some chunks)) raw).2.storeThreshold
        = some (if isFdpQuestion s then 0.45 else 0.55)) ∧
    ((postRoute (QueryField.str s) (StoreReply.ok (some chunks)) raw).2.storeCount
        = some 10) ∧
    ((postRoute (QueryField.str s) (StoreReply.ok (some chunks)) raw).2.gen = true ↔
        effectiveMaxSimThreshold (isFdpQuestion s) ≤ maxSimOf chunks) ∧
    (effectiveMaxSimThreshold (isFdpQuestion s)
        = (if isFdpQuestion s then 0.5 else 0.6)) ∧
    ((0.4 : ℚ) ≤ matchThreshold (isFdpQuestion s) ∧
      matchThreshold (isFdpQuestion s) ≤ 0.55) ∧
    ((0.5 : ℚ) ≤ effectiveMaxSimThreshold (isFdpQuestion s) ∧
      effectiveMaxSimThreshold (isFdpQuestion s) ≤ 0.6) ∧
    ((10 : Nat) ≤ 10 ∧ (10 : Nat) ≤ 12) := by
  obtain ⟨c, cs, rfl⟩ := List.exists_cons_of_ne_nil hne
  have hth : ∀ b : Bool, (0.4 : ℚ) ≤ matchThreshold b ∧ matchThreshold b ≤ 0.55 := by
    intro b
    cases b <;> constructor <;> norm_num [matchThreshold]
  have heff : ∀ b : Bool,
      (0.5 : ℚ) ≤ effectiveMaxSimThreshold b ∧ effectiveMaxSimThreshold b ≤ 0.6 := by
    intro b
    cases b <;> constructor <;> norm_num [effectiveMaxSimThreshold]
  by_cases hsim : maxSimOf (c :: cs) < effectiveMaxSimThreshold (isFdpQuestion s)
  · have h2 : (postRoute (QueryField.str s) (StoreReply.ok (some (c :: cs))) raw).2 =
        ⟨true, true, some (matchThreshold (isFdpQuestion s)), some 10, false⟩ := by
      simp [postRoute, hs, hsim]
    refine ⟨by rw [h2]; rfl, by rw [h2], ?_, rfl, hth _, heff _, by norm_num⟩
    rw [h2]
    simp only [Bool.false_eq_true, false_iff]
    exact not_le.mpr hsim
  · have h2 : (postRoute (QueryField.str s) (StoreReply.ok (some (c :: cs))) raw).2 =
        ⟨true, true, some (matchThreshold (isFdpQuestion s)), some 10, true⟩ := by
      simp [postRoute, hs, hsim]
    refine ⟨by rw [h2]; rfl, by rw [h2], ?_, rfl, hth _, heff _, by norm_num⟩
    rw [h2]
    simp only [true_iff]
    exact not_lt.mp hsim

/-- Witness for C6 at a concrete FDP query and one scored chunk. -/
theorem c6_thresholds_witness :
    ((postRoute (QueryField.str "max FDP for two crew?")
        (StoreReply.ok (some [⟨some "a", none, none, none, some 0.7⟩])) "unused").2.storeThreshold
        = some (if isFdpQuestion "max FDP for two crew?" then 0.45 else 0.55)) ∧
    ((postRoute (QueryField.str "max FDP for two crew?")
        (StoreReply.ok (some [⟨some "a", none, none, none, some 0.7⟩])) "unused").2.storeCount
        = some 10) ∧
    ((postRoute (QueryField.str "max FDP for two crew?")
        (StoreReply.ok (some [⟨some "a", none, none, none, some 0.7⟩])) "unused").2.gen = true ↔
        effectiveMaxSimThreshold (isFdpQuestion "max FDP for two crew?")
          ≤ maxSimOf [⟨some "a", none, none, none, some 0.7⟩]) ∧
    (effectiveMaxSimThreshold (isFdpQuestion "max FDP for two crew?")
        = (if isFdpQuestion "max FDP for two crew?" then 0.5 else 0.6)) ∧
    ((0.4 : ℚ) ≤ matchThreshold (isFdpQuestion "max FDP for two crew?") ∧
      matchThreshold (isFdpQuestion "max FDP for two crew?") ≤ 0.55) ∧
    ((0.5 : ℚ) ≤ effectiveMaxSimThreshold (isFdpQuestion "max FDP for two crew?") ∧
      effectiveMaxSimThreshold (isFdpQuestion "max FDP for two crew?") ≤ 0.6) ∧
    ((10 : Nat) ≤ 10 ∧ (10 : Nat) ≤ 12) :=
  c6_thresholds _ _ _ (by decide) (by decide)

/-- C10: a non-empty retrieval result in which no chunk carries a numeric
similarity score is treated as maximum similarity 0, so the request takes
the weak-coverage fallback path (confidenceTag "low", generator not
invoked) instead of failing or generating. -/
theorem c10_unscored_chunks (s : String) (chunks : List Chunk) (raw : String)
    (hs : s ≠ "") (hne : chunks ≠ [])
    (hnone : ∀ c ∈ chunks, c.similarity = none) :
    postRoute (QueryField.str s) (StoreReply.ok (some chunks)) raw =
      (ApiResult.ok weakCoverageAnswer chunks "low",
       ⟨true, true, some (matchThreshold (isFdpQuestion s)), some 10, false⟩) := by
  have hmax : maxSimOf chunks = 0 := by
    unfold maxSimOf
    rw [List.filterMap_eq_nil_iff.mpr hnone]
  refine postRoute_weak s chunks raw hs hne ?_
  rw [hmax]
  by_cases hfdp : isFdpQuestion s <;> simp [effectiveMaxSimThreshold, hfdp] <;> norm_num

/-! ## Helper lemmas about the scanning primitives -/

lemma chEq_imp_lowEq (a b : Char) (h : chEq a b = true) : lowEq a b = true := by
  have hab : a = b := eq_of_beq h
  subst hab
  simp [lowEq]

lemma startsW_mono (eq1 eq2 : Char → Char → Bool)
    (him : ∀ a b, eq1 a b = true → eq2 a b = true) :
    ∀ pat l, startsW eq1 pat l = true → startsW eq2 pat l = true := by
  intro pat
  induction pat with
  | nil => intro l _; rfl
  | cons p ps ih =>
    intro l h
    cases l with
    | nil => exact absurd h (by simp [startsW])
    | cons c cs =>
      rw [startsW, Bool.and_eq_true] at h ⊢
      exact ⟨him p c h.1, ih cs h.2⟩

lemma containsW_mono (eq1 eq2 : Char → Char → Bool)
    (him : ∀ a b, eq1 a b = true → eq2 a b = true) :
    ∀ pat l, containsW eq1 pat l = true → containsW eq2 pat l = true := by
  intro pat l
  induction l with
  | nil => exact startsW_mono eq1 eq2 him pat []
  | cons c cs ih =>
    intro h
    rw [containsW, Bool.or_eq_true] at h ⊢
    rcases h with h | h
    · exact Or.inl (startsW_mono eq1 eq2 him _ _ h)
    · exact Or.inr (ih h)

lemma startsW_append_of (eq : Char → Char → Bool) :
    ∀ (pat l t : List Char), startsW eq pat l = true →
      startsW eq pat (l ++ t) = true := by
  intro pat
  induction pat with
  | nil => intro l t _; rfl
  | cons p ps ih =>
    intro l t h
    cases l with
    | nil => exact absurd h (by simp [startsW])
    | cons c cs =>
      simp only [startsW, Bool.and_eq_true] at h ⊢
      exact ⟨h.1, ih cs t h.2⟩

lemma containsW_append_left (eq : Char → Char → Bool) (pat : List Char) :
    ∀ l t, containsW eq pat l = true → containsW eq pat (l ++ t) = true := by
  intro l
  induction l with
  | nil =>
    intro t h
    cases pat with
    | nil =>
      cases t with
      | nil => exact h
      | cons x xs => rfl
    | cons p ps => exact absurd h (by simp [containsW, startsW])
  | cons c cs ih =>
    intro t h
    rw [containsW, Bool.or_eq_true] at h
    rw [List.cons_append, containsW, Bool.or_eq_true]
    rcases h with h | h
    · exact Or.inl (by rw [← List.cons_append]; exact startsW_append_of eq pat _ t h)
    · exact Or.inr (ih t h)

lemma containsW_append_right (eq : Char → Char → Bool) (pat : List Char) :
    ∀ l t, containsW eq pat t = true → containsW eq pat (l ++ t) = true := by
  intro l
  induction l with
  | nil => intro t h; exact h
  | cons c cs ih =>
    intro t h
    rw [List.cons_append, containsW, Bool.or_eq_true]
    exact Or.inr (ih t h)

lemma containsW_of_middle (eq : Char → Char → Bool) (pat u m v : List Char)
    (h : containsW eq pat m = true) :
    containsW eq pat (u ++ (m ++ v)) = true :=
  containsW_append_right eq pat u (m ++ v) (containsW_append_left eq pat m v h)

lemma stripScan_append_eq : ∀ l : List Char, ∃ t, stripScan l ++ t = l := by
  intro l
  induction l with
  | nil => exact ⟨[], rfl⟩
  | cons c cs ih =>
    rw [stripScan]
    by_cases hhit : stripHit (c :: cs)
    · exact ⟨c :: cs, by rw [if_pos hhit]; rfl⟩
    · obtain ⟨t, ht⟩ := ih
      exact ⟨t, by rw [if_neg hhit, List.cons_append, ht]⟩

lemma jsTrim_decomp (l : List Char) : ∃ u v, u ++ (jsTrim l ++ v) = l := by
  refine ⟨List.takeWhile jsWs l,
    ((List.dropWhile jsWs l).reverse.takeWhile jsWs).reverse, ?_⟩
  unfold jsTrim
  conv_rhs => rw [← List.takeWhile_append_dropWhile jsWs l]
  congr 1
  rw [← List.reverse_append, List.takeWhile_append_dropWhile, List.reverse_reverse]

lemma stripScan_all_good : ∀ l : List Char, goodConf l = true →
    containsW lowEq confLit (stripScan l) = false := by
  intro l
  induction l with
  | nil => intro _; rfl
  | cons c cs ih =>
    intro h
    rw [goodConf, Bool.and_eq_true, Bool.or_eq_true] at h
    rw [stripScan]
    by_cases hhit : stripHit (c :: cs)
    · rw [if_pos hhit]
      rfl
    · have hstart : startsW lowEq confLit (c :: cs) = false := by
        rcases h.1 with h1 | h1
        · simpa using h1
        · exact absurd h1 hhit
      rw [if_neg hhit, containsW]
      have hrec := ih h.2
      have hns : startsW lowEq confLit (c :: stripScan cs) = false := by
        cases hSW : startsW lowEq confLit (c :: stripScan cs) with
        | false => rfl
        | true =>
          obtain ⟨t0, ht0⟩ := stripScan_append_eq cs
          have hext := startsW_append_of lowEq confLit (c :: stripScan cs) t0 hSW
          rw [List.cons_append, ht0, hstart] at hext
          cases hext
      rw [hns, hrec]
      rfl

lemma stripAnswer_no_ci (raw : String) (h : goodConf raw.toList = true) :
    containsW lowEq confLit (stripAnswer raw).toList = false := by
  have h1 := stripScan_all_good raw.toList h
  obtain ⟨u, v, huv⟩ := jsTrim_decomp (stripScan raw.toList)
  have heq : (stripAnswer raw).toList = jsTrim (stripScan raw.toList) := rfl
  rw [heq]
  cases hcon : containsW lowEq confLit (jsTrim (stripScan raw.toList)) with
  | false => rfl
  | true =>
    have := containsW_of_middle lowEq confLit u _ v hcon
    rw [huv, h1] at this
    cases this

lemma litContains_eq_false_of (s : String)
    (h : containsW lowEq confLit s.toList = false) :
    litContains "Confidence tag:" s = false := by
  cases hcon : litContains "Confidence tag:" s with
  | false => rfl
  | true =>
    have := containsW_mono chEq lowEq chEq_imp_lowEq confLit s.toList hcon
    rw [h] at this
    cases this

/-! ## Helper lemmas: pushing the formatter across a body prefix -/

lemma startsW_append_nl (eq : Char → Char → Bool) (pat : List Char)
    (hnl : ∀ p ∈ pat, eq p '\n' = false) :
    ∀ xs ys, startsW eq pat (xs ++ '\n' :: ys) = startsW eq pat xs := by
  induction pat with
  | nil => intro xs ys; rfl
  | cons p ps ih =>
    intro xs ys
    cases xs with
    | nil =>
      simp [startsW, hnl p (List.mem_cons_self p ps)]
    | cons x xs' =>
      rw [List.cons_append, startsW, startsW,
        ih (fun q hq => hnl q (List.mem_cons_of_mem p hq)) xs' ys]

lemma confLit_no_nl : ∀ p ∈ confLit, lowEq p '\n' = false := by decide

lemma findTag_append_nl : ∀ xs ys : List Char,
    containsW lowEq confLit xs = false →
    findTag (xs ++ '\n' :: ys) = findTag ('\n' :: ys) := by
  intro xs
  induction xs with
  | nil => intro ys _; rfl
  | cons c cs ih =>
    intro ys h
    rw [containsW, Bool.or_eq_false_iff] at h
    rw [List.cons_append, findTag]
    have htag : tagAt (c :: (cs ++ '\n' :: ys)) = none := by
      unfold tagAt
      rw [← List.cons_append, startsW_append_nl lowEq confLit confLit_no_nl, h.1]
      rfl
    rw [htag]
    exact ih ys h.2

lemma stripScan_append_nl : ∀ xs ys : List Char,
    containsW lowEq confLit xs = false →
    stripScan (xs ++ '\n' :: ys) = xs ++ stripScan ('\n' :: ys) := by
  intro xs
  induction xs with
  | nil => intro ys _; rfl
  | cons c cs ih =>
    intro ys h
    rw [containsW, Bool.or_eq_false_iff] at h
    rw [List.cons_append, stripScan]
    have hhit : stripHit (c :: (cs ++ '\n' :: ys)) = false := by
      unfold stripHit
      rw [← List.cons_append, startsW_append_nl lowEq confLit confLit_no_nl, h.1]
      rfl
    rw [hhit]
    simp only [Bool.false_eq_true, if_false]
    rw [ih ys h.2, List.cons_append]

lemma jsTrim_append_ws (l : List Char) (c : Char) (hc : jsWs c = true) :
    jsTrim (l ++ [c]) = jsTrim l := by
  unfold jsTrim
  rw [List.dropWhile_append]
  by_cases hl : (List.dropWhile jsWs l).isEmpty
  · rw [if_pos hl, List.isEmpty_iff.mp hl]
    simp [List.dropWhile_cons, hc]
  · rw [if_neg hl, List.reverse_append]
    have h1 : ([c] : List Char).reverse = [c] := rfl
    rw [h1, List.singleton_append, List.dropWhile_cons, hc]
    simp

/-! ## Claim theorems: the Response Formatter (C3, C4) -/

/-- C3 counterexample: a generator output that ends in
"Confidence tag: Medium" but whose earlier text also contains a confidence
marker. The formatter reports "high" (the leftmost match), not "medium",
and the returned body still contains "Confidence tag:" (the replace regex,
anchored at end of input, skips the first marker and removes the second). -/
theorem c3_counterexample :
    endsWithL "Confidence tag: Medium"
      "Confidence tag: High\nConfidence tag: Medium" = true ∧
    extractTag "Confidence tag: High\nConfidence tag: Medium" = "high" ∧
    stripAnswer "Confidence tag: High\nConfidence tag: Medium" =
      "Confidence tag: High" := by decide

/-- C3 (amended): for a generator output of the form
`body ++ "\nConfidence tag: Medium"` where the marker literal does not occur
(case-insensitively) in `body`, the formatter yields confidenceTag "medium"
and the answer is `body` with the confidence line removed (and trailing
whitespace trimmed); and an output in which the tag pattern matches nowhere
yields "unknown". -/
theorem c3_tag_round_trip (body raw : String)
    (hbody : containsW lowEq confLit body.toList = false)
    (hraw : findTag raw.toList = none) :
    extractTag (body ++ "\nConfidence tag: Medium") = "medium" ∧
    stripAnswer (body ++ "\nConfidence tag: Medium") =
      String.mk (jsTrim body.toList) ∧
    extractTag raw = "unknown" := by
  have htl : (body ++ "\nConfidence tag: Medium").toList
      = body.toList ++ '\n' :: "Confidence tag: Medium".toList :=
    String.data_append body "\nConfidence tag: Medium"
  refine ⟨?_, ?_, ?_⟩
  · unfold extractTag
    rw [htl, findTag_append_nl body.toList _ hbody]
    rfl
  · unfold stripAnswer
    rw [htl, stripScan_append_nl body.toList _ hbody]
    have hfin : stripScan ('\n' :: "Confidence tag: Medium".toList) = ['\n'] := by
      decide
    rw [hfin]
    exact congrArg String.mk (jsTrim_append_ws body.toList '\n' (by decide))
  · unfold extractTag
    rw [hraw]
    rfl

/-- Witness for C3 (amended) at a concrete body and tag-free output. -/
theorem c3_tag_round_trip_witness :
    extractTag ("1) TL;DR:\n- Yes." ++ "\nConfidence tag: Medium") = "medium" ∧
    stripAnswer ("1) TL;DR:\n- Yes." ++ "\nConfidence tag: Medium") =
      String.mk (jsTrim "1) TL;DR:\n- Yes.".toList) ∧
    extractTag "No marker here." = "unknown" :=
  c3_tag_round_trip "1) TL;DR:\n- Yes." "No marker here." (by decide) (by decide)

/-- C4 counterexample: a generator output that mentions the marker on a
non-final line is returned verbatim — the strip regex is anchored at the end
of input, so the visible answer still contains "Confidence tag:". The route
(query "q", one chunk of similarity 0.95) returns it unchanged. -/
theorem c4_counterexample :
    (postRoute (QueryField.str "q")
        (StoreReply.ok (some [⟨some "c", some "BLR", none, none, some 0.95⟩]))
        "Confidence tag: High\nSee above.").1 =
      ApiResult.ok "Confidence tag: High\nSee above."
        [⟨some "c", some "BLR", none, none, some 0.95⟩] "high" ∧
    litContains "Confidence tag:" "Confidence tag: High\nSee above." = true := by
  decide

set_option maxRecDepth 40000 in
/-- C4 (amended): the two fallback answers never contain the substring
"Confidence tag:", and a generator-produced answer does not contain it
provided every (case-insensitive) occurrence of the marker in the raw
output is followed only by non-line-break characters up to the end of the
output — in particular whenever the confidence line is the final line and
the marker occurs nowhere else. -/
theorem c4_no_tag_leak (raw : String) (h : goodConf raw.toList = true) :
    litContains "Confidence tag:" (stripAnswer raw) = false ∧
    litContains "Confidence tag:" noCoverageAnswer = false ∧
    litContains "Confidence tag:" weakCoverageAnswer = false := by
  refine ⟨litContains_eq_false_of _ (stripAnswer_no_ci raw h), ?_, ?_⟩
  · exact litContains_eq_false_of _ (stripAnswer_no_ci noCoverageRaw (by decide))
  · exact litContains_eq_false_of _ (stripAnswer_no_ci weakCoverageRaw (by decide))

/-- Witness for C4 (amended): a well-formed output whose only marker is the
final line. -/
theorem c4_no_tag_leak_witness :
    litContains "Confidence tag:"
      (stripAnswer "1) TL;DR:\n- Yes.\n\nConfidence tag: High") = false ∧
    litContains "Confidence tag:" noCoverageAnswer = false ∧
    litContains "Confidence tag:" weakCoverageAnswer = false :=
  c4_no_tag_leak "1) TL;DR:\n- Yes.\n\nConfidence tag: High" (by decide)

/-- Witness for C10: one chunk with no similarity field. -/
theorem c10_unscored_chunks_witness :
    postRoute (QueryField.str "standby rules")
        (StoreReply.ok (some [⟨some "a", some "BLR", none, none, none⟩])) "unused" =
      (ApiResult.ok weakCoverageAnswer [⟨some "a", some "BLR", none, none, none⟩] "low",
       ⟨true, true, some (matchThreshold (isFdpQuestion "standby rules")),
        some 10, false⟩) :=
  c10_unscored_chunks _ _ _ (by decide) (by decide) (by decide)

/-! ## Helper lemmas: chunk length bounds -/

lemma jsTrim_length_le (l : List Char) : (jsTrim l).length ≤ l.length := by
  unfold jsTrim
  rw [List.length_reverse]
  calc ((l.dropWhile jsWs).reverse.dropWhile jsWs).length
      ≤ (l.dropWhile jsWs).reverse.length :=
        (List.dropWhile_sublist jsWs).length_le
    _ = (l.dropWhile jsWs).length := List.length_reverse _
    _ ≤ l.length := (List.dropWhile_sublist jsWs).length_le

lemma chunksOfF_length_le :
    ∀ (fuel m : Nat) (l : List Char), l.length ≤ fuel →
      ∀ x ∈ chunksOfF fuel m l, x.length ≤ m := by
  intro fuel
  induction fuel with
  | zero =>
    intro m l hl x hx
    have : l = [] := List.length_eq_zero.mp (Nat.le_zero.mp hl)
    subst this
    cases hx
  | succ fuel ih =>
    intro m l hl x hx
    cases l with
    | nil => cases hx
    | cons c rest =>
      rw [chunksOfF] at hx
      by_cases hm : (m == 0) = true
      · rw [if_pos hm] at hx
        cases hx
      · rw [if_neg hm] at hx
        rcases List.mem_cons.mp hx with h | h
        · subst h
          rw [List.length_take]
          exact min_le_left _ _
        · refine ih m ((c :: rest).drop m) ?_ x h
          have hm1 : 1 ≤ m := Nat.one_le_iff_ne_zero.mpr (by simpa using hm)
          have : ((c :: rest).drop m).length = rest.length + 1 - m := by
            rw [List.length_drop]
            rfl
          rw [this]
          have hlen : rest.length + 1 ≤ fuel + 1 := hl
          omega

lemma chunksOf_length_le (m : Nat) (l : List Char) :
    ∀ x ∈ chunksOf m l, x.length ≤ m :=
  chunksOfF_length_le l.length m l le_rfl

lemma chunksOfF_flatten :
    ∀ (fuel m : Nat) (l : List Char), l.length ≤ fuel → m ≠ 0 →
      (chunksOfF fuel m l).flatten = l := by
  intro fuel
  induction fuel with
  | zero =>
    intro m l hl _
    have : l = [] := List.length_eq_zero.mp (Nat.le_zero.mp hl)
    subst this
    rfl
  | succ fuel ih =>
    intro m l hl hm
    cases l with
    | nil => rfl
    | cons c rest =>
      rw [chunksOfF, if_neg (by simpa using hm), List.flatten_cons]
      rw [ih m ((c :: rest).drop m) ?_ hm, List.take_append_drop]
      have hm1 : 1 ≤ m := Nat.one_le_iff_ne_zero.mpr hm
      rw [List.length_drop]
      have hlen : rest.length + 1 ≤ fuel + 1 := hl
      simp only [List.length_cons]
      omega

lemma chunkCore_length_le (m : Nat) :
    ∀ (ps : List (List Char)) (current : List Char), current.length ≤ m →
      ∀ x ∈ chunkCore m ps current, x.length ≤ m := by
  intro ps
  induction ps with
  | nil =>
    intro current hc x hx
    rw [chunkCore] at hx
    by_cases hcur : current.isEmpty
    · rw [if_pos hcur] at hx
      cases hx
    · rw [if_neg hcur] at hx
      rcases List.mem_singleton.mp hx with rfl
      exact le_trans (jsTrim_length_le current) hc
  | cons p ps ih =>
    intro current hc x hx
    rw [chunkCore] at hx
    have hflush : ∀ y ∈ (if current.isEmpty then ([] : List (List Char))
        else [jsTrim current]), y.length ≤ m := by
      intro y hy
      by_cases hcur : current.isEmpty
      · rw [if_pos hcur] at hy
        cases hy
      · rw [if_neg hcur] at hy
        rcases List.mem_singleton.mp hy with rfl
        exact le_trans (jsTrim_length_le current) hc
    by_cases h1 : m < p.length
    · rw [if_pos h1] at hx
      rcases List.mem_append.mp hx with hx | hx
      · rcases List.mem_append.mp hx with hx | hx
        · exact hflush x hx
        · exact chunksOf_length_le m p x hx
      · exact ih [] (Nat.zero_le m) x hx
    · rw [if_neg h1] at hx
      by_cases h2 : m < (current ++ '\n' :: '\n' :: p).length
      · rw [if_pos h2] at hx
        rcases List.mem_append.mp hx with hx | hx
        · exact hflush x hx
        · exact ih p (Nat.le_of_not_lt h1) x hx
      · rw [if_neg h2] at hx
        refine ih _ ?_ x hx
        by_cases hcur : current.isEmpty
        · rw [if_pos hcur]
          exact Nat.le_of_not_lt h1
        · rw [if_neg hcur]
          exact Nat.le_of_not_lt h2

/-! ## Claim theorems: corpus loader chunking (C7) -/

/-- C7: every chunk the corpus loader produces has content length at most
the 1600-character bound; the oversized-paragraph slicer cuts exactly at
character boundaries (concatenating its slices restores the paragraph). -/
theorem c7_chunk_length_bound (text : String) (p : List Char) :
    ((chunkText text).all fun c => c.length ≤ 1600) = true ∧
    (chunksOf 1600 p).flatten = p := by
  constructor
  · rw [List.all_eq_true]
    intro c hc
    obtain ⟨l, hl, rfl⟩ := List.mem_map.mp hc
    have hle := chunkCore_length_le 1600 (paragraphs text) [] (Nat.zero_le _) l hl
    exact decide_eq_true hle
  · exact chunksOfF_flatten p.length 1600 p le_rfl (by norm_num)

/-! ## Claim theorems: ingestion and backfill (C8) -/

/-- C8 counterexample: running the corpus ingestion twice on the same
unchanged input doubles the row count — the script inserts
unconditionally, so repeated ingestion adds further rows. -/
theorem c8_counterexample :
    (ingestRun (fun _ => [1]) "Day off rules."
      (ingestRun (fun _ => [1]) "Day off rules." [])).length = 2 ∧
    (ingestRun (fun _ => [1]) "Day off rules." []).length = 1 := by decide

/-- C8 (amended): the embedding backfill is idempotent — a second run
changes nothing, because every row it touched now has an embedding and
every other row already had one — but the ingestion is not: re-running it
on the same input appends one further copy of every chunk row. -/
theorem c8_backfill_idempotent (embed : String → List ℚ) (store : List Row)
    (text : String) :
    backfillRun embed (backfillRun embed store) = backfillRun embed store ∧
    ingestRun embed text (ingestRun embed text store) =
      ingestRun embed text store ++ (chunkText text).map (mkRow embed) := by
  constructor
  · unfold backfillRun
    rw [List.map_map]
    refine List.map_congr_left ?_
    intro r _
    simp only [Function.comp_apply]
    cases hr : r.embedding with
    | none => simp [backfillRow, hr]
    | some e => simp [backfillRow, hr]
  · rfl

/-! ## Helper lemmas: prompt assembly (C9) -/

lemma startsW_chEq_refl : ∀ l : List Char, startsW chEq l l = true := by
  intro l
  induction l with
  | nil => rfl
  | cons c cs ih =>
    rw [startsW, Bool.and_eq_true]
    exact ⟨by simp [chEq], ih⟩

lemma joinSep_cons_toList (sep x : String) (xs : List String) :
    ∃ t, (joinSep sep (x :: xs)).toList = x.toList ++ t := by
  cases xs with
  | nil => exact ⟨[], (List.append_nil _).symm⟩
  | cons y ys =>
    refine ⟨(sep ++ joinSep sep (y :: ys)).toList, ?_⟩
    rw [joinSep]
    show (x ++ sep ++ joinSep sep (y :: ys)).data = _
    rw [String.data_append, String.data_append, List.append_assoc]
    rfl

lemma toList_append_of (a b : String) (p t0 : List Char)
    (ha : a.toList = p ++ t0) :
    (a ++ b).toList = p ++ (t0 ++ b.toList) := by
  show (a ++ b).data = _
  rw [String.data_append]
  show a.toList ++ b.toList = _
  rw [ha, List.append_assoc]

lemma posLabel_not_empty (idx : Nat) :
    ("[" ++ toString (idx + 1) ++ "]").isEmpty = false := by
  cases hie : ("[" ++ toString (idx + 1) ++ "]").isEmpty with
  | false => rfl
  | true =>
    have h0 : ("[" ++ toString (idx + 1) ++ "]") = "" :=
      (String.isEmpty_iff _).mp hie
    have h1 : ("[" ++ toString (idx + 1) ++ "]").data
        = '[' :: (toString (idx + 1) ++ "]").data := by
      rw [String.data_append, String.data_append, ← String.data_append]
      rfl
    rw [h0] at h1
    cases h1

lemma contextEntry_toList (idx : Nat) (c : Chunk) :
    ∃ t, (contextEntry idx c).toList
      = ("[" ++ toString (idx + 1) ++ "]").toList ++ t := by
  have hfil : (labelParts idx c).filter (fun s => !s.isEmpty)
      = ("[" ++ toString (idx + 1) ++ "]") ::
        ((labelParts idx c).tail.filter (fun s => !s.isEmpty)) := by
    rw [labelParts, List.filter_cons, if_pos (by rw [posLabel_not_empty idx]; rfl)]
    rfl
  obtain ⟨t0, ht0⟩ := joinSep_cons_toList " " ("[" ++ toString (idx + 1) ++ "]")
    ((labelParts idx c).tail.filter (fun s => !s.isEmpty))
  rw [← hfil] at ht0
  refine ⟨(t0 ++ "\n".toList) ++
    (if (c.content.getD "").length > 1200
      then (c.content.getD "").take 1200 ++ " …"
      else c.content.getD "").toList, ?_⟩
  show ((joinSep " " ((labelParts idx c).filter (fun s => !s.isEmpty)) ++ "\n") ++
      (if (c.content.getD "").length > 1200
        then (c.content.getD "").take 1200 ++ " …"
        else c.content.getD "")).toList = _
  exact toList_append_of _ _ _ _ (toList_append_of _ _ _ _ ht0)

/-! ## Claim theorems: prompt assembly (C9) -/

/-- C9: the prompt context presents the chunk at position i (0-based) as
entry number i+1: the assembled entry list has one entry per chunk, the
i-th entry is `contextEntry i` of the i-th chunk, every entry starts with
the positional label "[i+1]" whatever the chunk contents (so re-running
assembly on the same ordered list reproduces the labels [1]..[n]), and
chunk content beyond 1200 characters is cut at 1200 characters with the
explicit truncation marker " …" appended, shorter content passing through
unchanged. -/
theorem c9_prompt_labels (cs : List Chunk) (i : Nat) (h : i < cs.length)
    (c c' : Chunk) (s : String) (hc : c.content = some s) :
    ((cs.mapIdx contextEntry).length = cs.length) ∧
    ((cs.mapIdx contextEntry).get ⟨i, by rw [List.length_mapIdx]; exact h⟩
      = contextEntry i (cs.get ⟨i, h⟩)) ∧
    (startsW chEq ("[" ++ toString (i + 1) ++ "]").toList
      (contextEntry i c).toList = true) ∧
    ((contextEntry i c).toList.take ("[" ++ toString (i + 1) ++ "]").length
      = (contextEntry i c').toList.take ("[" ++ toString (i + 1) ++ "]").length) ∧
    (1200 < s.length → contextEntry i c =
      joinSep " " ((labelParts i c).filter (fun x => !x.isEmpty)) ++ "\n" ++
        (s.take 1200 ++ " …")) ∧
    (s.length ≤ 1200 → contextEntry i c =
      joinSep " " ((labelParts i c).filter (fun x => !x.isEmpty)) ++ "\n" ++ s) := by
  obtain ⟨t, ht⟩ := contextEntry_toList i c
  obtain ⟨t', ht'⟩ := contextEntry_toList i c'
  refine ⟨List.length_mapIdx, ?_, ?_, ?_, ?_, ?_⟩
  · rw [List.get_eq_getElem, List.get_eq_getElem]
    exact List.getElem_mapIdx
  · rw [ht]
    exact startsW_append_of chEq _ _ t (startsW_chEq_refl _)
  · rw [ht, ht']
    have hlen : ("[" ++ toString (i + 1) ++ "]").length
        = ("[" ++ toString (i + 1) ++ "]").toList.length := rfl
    rw [hlen, List.take_left, List.take_left]
  · intro hlong
    show joinSep " " ((labelParts i c).filter (fun x => !x.isEmpty)) ++ "\n" ++
      (if (c.content.getD "").length > 1200
        then (c.content.getD "").take 1200 ++ " …" else c.content.getD "") = _
    rw [hc, Option.getD_some, if_pos hlong]
  · intro hshort
    show joinSep " " ((labelParts i c).filter (fun x => !x.isEmpty)) ++ "\n" ++
      (if (c.content.getD "").length > 1200
        then (c.content.getD "").take 1200 ++ " …" else c.content.getD "") = _
    rw [hc, Option.getD_some, if_neg (Nat.not_lt.mpr hshort)]

/-- Witness for C9 at a two-chunk list, a long content (1201 repetitions)
and a short one. -/
theorem c9_prompt_labels_witness :
    (([⟨some "alpha", some "BLR", some "p.1", some "Sec 2", some 0.8⟩,
       ⟨some "beta", none, none, none, none⟩] :
        List Chunk).mapIdx contextEntry).length = 2 ∧
    (([⟨some "alpha", some "BLR", some "p.1", some "Sec 2", some 0.8⟩,
       ⟨some "beta", none, none, none, none⟩] :
        List Chunk).mapIdx contextEntry).get ⟨1, by decide⟩
      = contextEntry 1 (([⟨some "alpha", some "BLR", some "p.1", some "Sec 2", some 0.8⟩,
       ⟨some "beta", none, none, none, none⟩] :
        List Chunk).get ⟨1, by decide⟩) ∧
    (startsW chEq ("[" ++ toString (1 + 1) ++ "]").toList
      (contextEntry 1 ⟨some "beta", none, none, none, none⟩).toList = true) ∧
    ((contextEntry 1 ⟨some "beta", none, none, none, none⟩).toList.take
        ("[" ++ toString (1 + 1) ++ "]").length
      = (contextEntry 1 ⟨some "alpha", some "BLR", some "p.1", some "Sec 2",
          some 0.8⟩).toList.take ("[" ++ toString (1 + 1) ++ "]").length) ∧
    (1200 < ("beta".length) → contextEntry 1 ⟨some "beta", none, none, none, none⟩ =
      joinSep " " ((labelParts 1 ⟨some "beta", none, none, none, none⟩).filter
        (fun x => !x.isEmpty)) ++ "\n" ++ ("beta".take 1200 ++ " …")) ∧
    ("beta".length ≤ 1200 → contextEntry 1 ⟨some "beta", none, none, none, none⟩ =
      joinSep " " ((labelParts 1 ⟨some "beta", none, none, none, none⟩).filter
        (fun x => !x.isEmpty)) ++ "\n" ++ "beta") :=
  c9_prompt_labels
    [⟨some "alpha", some "BLR", some "p.1", some "Sec 2", some 0.8⟩,
     ⟨some "beta", none, none, none, none⟩] 1 (by decide)
    ⟨some "beta", none, none, none, none⟩
    ⟨some "alpha", some "BLR", some "p.1", some "Sec 2", some 0.8⟩
    "beta" rfl

end BidlineBuddy
